import Mathlib

/-!
# Verification of `cachetools/func.py` (memoizing function decorators)

This file embeds the memoizing-wrapper machinery of `src/cachetools/func.py`
into Lean 4 and proves the specified properties about it.

The file models:

* the per-call protocol of `wrapper` (lookup under the lock, hit/miss
  counters, the `pending` stampede guard, the swallowed `ValueError` on an
  oversized store, the `finally` block that releases waiters);
* `cache_clear` and the two variants of `cache_info`;
* the six decorator constructors (`fifo_cache`, ..., `ttl_cache`) and their
  dispatch on `maxsize` (`None`, a callable, or an integer);
* `_UnboundTTLCache` and, modelled from the spec, the TTL cache it extends;
* modelled from the spec, the key functions `keys.hashkey` / `keys.typedkey`
  over a small universe of Python values;
* a two-thread interleaving semantics of `wrapper` for the concurrency
  guarantees (stampede prevention, blocking on pending keys, parallel
  computation for distinct keys).
-/

namespace Cachetools

/-! ## Association-list caches

The unbounded fallback cache in `func.py` is a plain Python `dict`.  We model
a `dict` (restricted to the operations the wrapper uses: `cache[k]`,
`cache[k] = v`, `cache.clear()`, `len(cache)`) as an association list without
duplicate keys; `insertA` overwrites in place, matching `dict.__setitem__`. -/

/-- Modelled from the spec: lookup in the unbounded map fallback
(`result = cache[k]`, a Python `dict` indexing operation). -/
def lookupA {K V : Type} [DecidableEq K] : List (K × V) → K → Option V
  | [], _ => none
  | (a, b) :: t, k => if a = k then some b else lookupA t k

/-- Modelled from the spec: store into the unbounded map fallback
(`cache[k] = v` on a Python `dict`): overwrite the binding in place if the
key is present, append it otherwise. -/
def insertA {K V : Type} [DecidableEq K] : List (K × V) → K → V → List (K × V)
  | [], k, v => [(k, v)]
  | (a, b) :: t, k, v => if a = k then (k, v) :: t else (a, b) :: insertA t k v

/-- The set of keys bound in an association-list cache. -/
def domA {K V : Type} [DecidableEq K] (c : List (K × V)) : Finset K :=
  (c.map Prod.fst).toFinset

theorem lookupA_eq_none_iff {K V : Type} [DecidableEq K] (c : List (K × V)) (k : K) :
    lookupA c k = none ↔ k ∉ domA c := by
  induction c with
  | nil => simp [lookupA, domA]
  | cons p t ih =>
    obtain ⟨a, b⟩ := p
    by_cases h : a = k <;> simp [lookupA, domA, h] at ih ⊢ <;> simp [ih, Ne.symm h]

theorem domA_insertA {K V : Type} [DecidableEq K] (c : List (K × V)) (k : K) (v : V) :
    domA (insertA c k v) = insert k (domA c) := by
  induction c with
  | nil => simp [insertA, domA]
  | cons p t ih =>
    obtain ⟨a, b⟩ := p
    by_cases h : a = k
    · subst h; simp [insertA, domA]
    · simp [insertA, domA, h] at ih ⊢
      rw [ih]
      apply Finset.ext
      intro x
      simp
      tauto

/-! ## The sequential wrapper model

`_cache(cache, maxsize, typed)(func)` closes over a condition variable
`cond`, a set `pending`, and counters `hits`/`misses`.  `WState` is that
closed-over mutable state.  The cache itself is abstract here: `CacheOps`
packages the operations the wrapper uses, with `put` returning `none` where
the Python `__setitem__` raises `ValueError` ("value too large").

Python `set` and `dict` compare keys with `==`, which need not be structural
equality (e.g. `1 == 1.0`), so the model is parametrised by a Boolean
equality test `beq` on keys. -/

/-- The operations `wrapper`, `cache_clear` and `cache_info` perform on the
backing cache object. `put c k v = none` models `cache[k] = v` raising
`ValueError` (value too large), in which case the cache is unchanged. -/
structure CacheOps (σ K V : Type) where
  lookup : σ → K → Option V
  put : σ → K → V → Option σ
  clr : σ → σ
  size : σ → Nat

/-- The state closed over by the decorator: the backing cache, the `pending`
set of in-flight keys, and the `hits`/`misses` counters. -/
structure WState (σ K : Type) where
  cache : σ
  pending : List K
  hits : Nat
  misses : Nat

/-- Events emitted by a single wrapper call, used to state how the
`pending` set and the condition variable are driven. -/
inductive Ev (K : Type)
  | addPending : K → Ev K
  | removePending : K → Ev K
  | notifyAll : Ev K
deriving DecidableEq

/-- One call of `wrapper(*args, **kwargs)` run to completion by a single
thread, mirroring `func.py` lines 37-61: derive the key; wait until the key
is not pending (a lone thread finding its key pending would block forever,
modelled as `none`); on a cache hit increment `hits` and return the cached
value; otherwise increment `misses`, mark the key pending, run `func`
outside the lock, store the result (swallowing a too-large failure), and in
all cases finally remove the key from `pending` and notify all waiters.
`f` returns `Except E V`: `Except.error e` models `func` raising `e`. -/
def wrapperCall {σ K V E α : Type} (beq : K → K → Bool) (ops : CacheOps σ K V)
    (keyf : α → K) (f : α → Except E V) (s : WState σ K) (args : α) :
    Option (Except E V × WState σ K × List (Ev K)) :=
  let k := keyf args
  if s.pending.any (beq k) then
    none
  else
    match ops.lookup s.cache k with
    | some result => some (.ok result, { s with hits := s.hits + 1 }, [])
    | none =>
      let s1 : WState σ K :=
        { s with misses := s.misses + 1, pending := k :: s.pending }
      match f args with
      | .ok v =>
        let cache2 := (ops.put s1.cache k v).getD s1.cache
        some (.ok v,
          { s1 with cache := cache2, pending := s1.pending.eraseP (beq k) },
          [.addPending k, .removePending k, .notifyAll])
      | .error e =>
        some (.error e,
          { s1 with pending := s1.pending.eraseP (beq k) },
          [.addPending k, .removePending k, .notifyAll])

/-- `cache_clear()` from `func.py` lines 63-67: under the lock, clear the
backing cache and zero both counters.  (It does not touch `pending`.) -/
def cacheClear {σ K V : Type} (ops : CacheOps σ K V) (s : WState σ K) : WState σ K :=
  { s with cache := ops.clr s.cache, hits := 0, misses := 0 }

/-- The `_CacheInfo(hits, misses, maxsize, currsize)` named tuple. -/
structure CacheInfo where
  hits : Nat
  misses : Nat
  maxsize : Option Nat
  currsize : Nat
deriving DecidableEq

/-- `cache_info()` for the `isinstance(cache, dict)` branch of `func.py`
lines 69-73: report `maxsize` as `None` and `currsize` as `len(cache)`. -/
def cacheInfoDict {σ K V : Type} (ops : CacheOps σ K V) (s : WState σ K) : CacheInfo :=
  ⟨s.hits, s.misses, none, ops.size s.cache⟩

/-- `cache_info()` for the non-`dict` branch of `func.py` lines 75-79:
report the cache object's own `maxsize` and `currsize`. -/
def cacheInfoCache {σ K V : Type} (ops : CacheOps σ K V)
    (maxsizeOf : σ → Option Nat) (s : WState σ K) : CacheInfo :=
  ⟨s.hits, s.misses, maxsizeOf s.cache, ops.size s.cache⟩

/-- Modelled from the spec: the unbounded map fallback (`_cache({}, None,
typed)`), a Python `dict` with no eviction and no size limit; `put` never
fails. -/
def dictOps (K V : Type) [DecidableEq K] : CacheOps (List (K × V)) K V where
  lookup := lookupA
  put c k v := some (insertA c k v)
  clr _ := []
  size c := c.length

/-- The freshly constructed decorator state: empty cache, empty `pending`,
zero counters. -/
def freshState {σ K : Type} (c0 : σ) : WState σ K :=
  ⟨c0, [], 0, 0⟩

/-- Run a list of calls through the wrapper sequentially, stopping with
`none` if any call would block. -/
def runCalls {σ K V E α : Type} (beq : K → K → Bool) (ops : CacheOps σ K V)
    (keyf : α → K) (f : α → Except E V) :
    WState σ K → List α → Option (WState σ K)
  | s, [] => some s
  | s, a :: rest =>
    match wrapperCall beq ops keyf f s a with
    | none => none
    | some (_, s1, _) => runCalls beq ops keyf f s1 rest

/-! ## Key functions (`keys.hashkey` / `keys.typedkey`)

Modelled from the spec (the `keys` module itself is not part of the sources
under scrutiny): given the call arguments, `hashkey` produces a key whose
equality is Python `==` on the argument tuple, while `typedkey` additionally
distinguishes runtime types.  We model a small universe of Python values in
which an integer and a float can compare `==`-equal while having different
runtime types (`1 == 1.0` in Python). -/

/-- Runtime types of the modelled Python values. -/
inductive PyType
  | intTy
  | floatTy
  | strTy
deriving DecidableEq

/-- Modelled from the spec: a small universe of Python argument values.
Floats are restricted to integral values, which suffices for the spec's
`1` vs `1.0` distinction. -/
inductive PyVal
  | vint : Int → PyVal
  | vfloat : Int → PyVal
  | vstr : String → PyVal
deriving DecidableEq

/-- The runtime type of a value (Python `type(v)`). -/
def pyTypeOf : PyVal → PyType
  | .vint _ => .intTy
  | .vfloat _ => .floatTy
  | .vstr _ => .strTy

/-- Python `==` on the modelled values: numbers compare by numeric value
across `int`/`float`, strings by contents, numbers and strings are never
equal. -/
def pyEq : PyVal → PyVal → Bool
  | .vint n, .vint m => n = m
  | .vint n, .vfloat m => n = m
  | .vfloat n, .vint m => n = m
  | .vfloat n, .vfloat m => n = m
  | .vstr s, .vstr t => s = t
  | _, _ => false

/-- An element of a derived key tuple: either an argument value or a type
object appended by `typedkey`. -/
inductive KElem
  | v : PyVal → KElem
  | t : PyType → KElem
deriving DecidableEq

/-- Python `==` on key-tuple elements: values compare with `pyEq`, type
objects by identity, and a value never equals a type object. -/
def kElemEq : KElem → KElem → Bool
  | .v a, .v b => pyEq a b
  | .t a, .t b => a = b
  | _, _ => false

/-- Python `==` on whole derived keys (tuple equality, elementwise). -/
def keyTupleEq (a b : List KElem) : Bool :=
  a.length = b.length && (a.zip b).all fun p => kElemEq p.1 p.2

/-- Modelled from the spec: `keys.hashkey(*args)` — the key is the tuple of
the positional arguments themselves. -/
def hashkey (args : List PyVal) : List KElem :=
  args.map KElem.v

/-- Modelled from the spec: `keys.typedkey(*args)` — the `hashkey` tuple
followed by the runtime type of each argument, so that arguments equal in
value but different in type produce different keys. -/
def typedkey (args : List PyVal) : List KElem :=
  args.map KElem.v ++ args.map (fun a => KElem.t (pyTypeOf a))

/-- Modelled from the spec: a Python `dict` keyed by derived key tuples,
looked up with `==` on tuples (as a Python `dict` does). -/
def pyDictOps (V : Type) : CacheOps (List (List KElem × V)) (List KElem) V where
  lookup c k := (c.find? fun p => keyTupleEq p.1 k).map Prod.snd
  put c k v := some ((c.eraseP fun p => keyTupleEq p.1 k) ++ [(k, v)])
  clr _ := []
  size c := c.length

/-- `key = keys.typedkey if typed else keys.hashkey` (`func.py` line 30). -/
def chooseKeyFn (typed : Bool) : List PyVal → List KElem :=
  if typed then typedkey else hashkey

/-! ## The decorator constructors

`fifo_cache` .. `ttl_cache` (`func.py` lines 93-176) dispatch on their
`maxsize` argument: `None` selects the unbounded `dict` fallback, a callable
means the decorator was used bare (`@lru_cache`) and wraps that callable
with the default capacity 128, and an integer builds a bounded cache of that
capacity. -/

/-- The `maxsize` argument of a decorator constructor: an integer, `None`,
or a callable (bare-decorator usage), where `F` is the type of wrapped
functions. -/
inductive MaxsizeArg (F : Type)
  | num : Nat → MaxsizeArg F
  | unbounded : MaxsizeArg F
  | fn : F → MaxsizeArg F

/-- Which backing cache object `_cache` receives. -/
inductive CacheKind
  | dict
  | fifo : Nat → CacheKind
  | lfu : Nat → CacheKind
  | lru : Nat → CacheKind
  | mru : Nat → CacheKind
  | rr : Nat → CacheKind
  | ttl : Nat → Nat → CacheKind
  | unboundTTL : Nat → CacheKind
deriving DecidableEq

/-- The arguments a constructor passes to `_cache(cache, maxsize, typed)`:
the cache object, the `maxsize` recorded for `cache_parameters()`, and the
`typed` flag. -/
structure DecoratorCfg where
  kind : CacheKind
  maxsize : Option Nat
  typed : Bool
deriving DecidableEq

/-- The result of calling a decorator constructor: either a decorator still
waiting for the function, or (bare usage) the already-wrapped function. -/
inductive DecoratorResult (F : Type)
  | decorator : DecoratorCfg → DecoratorResult F
  | wrapped : DecoratorCfg → F → DecoratorResult F

/-- `fifo_cache(maxsize=128, typed=False)` (`func.py` lines 93-104). -/
def fifoCacheCtor {F : Type} (maxsize : MaxsizeArg F) (typed : Bool) : DecoratorResult F :=
  match maxsize with
  | .unbounded => .decorator ⟨.dict, none, typed⟩
  | .fn f => .wrapped ⟨.fifo 128, some 128, typed⟩ f
  | .num n => .decorator ⟨.fifo n, some n, typed⟩

/-- `lfu_cache(maxsize=128, typed=False)` (`func.py` lines 107-118). -/
def lfuCacheCtor {F : Type} (maxsize : MaxsizeArg F) (typed : Bool) : DecoratorResult F :=
  match maxsize with
  | .unbounded => .decorator ⟨.dict, none, typed⟩
  | .fn f => .wrapped ⟨.lfu 128, some 128, typed⟩ f
  | .num n => .decorator ⟨.lfu n, some n, typed⟩

/-- `lru_cache(maxsize=128, typed=False)` (`func.py` lines 121-132). -/
def lruCacheCtor {F : Type} (maxsize : MaxsizeArg F) (typed : Bool) : DecoratorResult F :=
  match maxsize with
  | .unbounded => .decorator ⟨.dict, none, typed⟩
  | .fn f => .wrapped ⟨.lru 128, some 128, typed⟩ f
  | .num n => .decorator ⟨.lru n, some n, typed⟩

/-- `mru_cache(maxsize=128, typed=False)` (`func.py` lines 135-149); the
deprecation warning has no behavioural effect. -/
def mruCacheCtor {F : Type} (maxsize : MaxsizeArg F) (typed : Bool) : DecoratorResult F :=
  match maxsize with
  | .unbounded => .decorator ⟨.dict, none, typed⟩
  | .fn f => .wrapped ⟨.mru 128, some 128, typed⟩ f
  | .num n => .decorator ⟨.mru n, some n, typed⟩

/-- `rr_cache(maxsize=128, choice=random.choice, typed=False)` (`func.py`
lines 152-163); the injectable `choice` function does not affect the
dispatch. -/
def rrCacheCtor {F : Type} (maxsize : MaxsizeArg F) (typed : Bool) : DecoratorResult F :=
  match maxsize with
  | .unbounded => .decorator ⟨.dict, none, typed⟩
  | .fn f => .wrapped ⟨.rr 128, some 128, typed⟩ f
  | .num n => .decorator ⟨.rr n, some n, typed⟩

/-- `ttl_cache(maxsize=128, ttl=600, timer=time.monotonic, typed=False)`
(`func.py` lines 166-176): with `maxsize=None` it uses `_UnboundTTLCache`
(not the `dict` fallback). -/
def ttlCacheCtor {F : Type} (maxsize : MaxsizeArg F) (ttl : Nat) (typed : Bool) :
    DecoratorResult F :=
  match maxsize with
  | .unbounded => .decorator ⟨.unboundTTL ttl, none, typed⟩
  | .fn f => .wrapped ⟨.ttl 128 ttl, some 128, typed⟩ f
  | .num n => .decorator ⟨.ttl n ttl, some n, typed⟩

/-- The `maxsize` that `cache_info()` reports for each cache object: `None`
for the `dict` fallback (the `isinstance(cache, dict)` branch) and for
`_UnboundTTLCache` (whose `maxsize` property returns `None`, `func.py`
lines 24-26), and the capacity otherwise. -/
def reportedMaxsize : CacheKind → Option Nat
  | .dict => none
  | .fifo n => some n
  | .lfu n => some n
  | .lru n => some n
  | .mru n => some n
  | .rr n => some n
  | .ttl n _ => some n
  | .unboundTTL _ => none

/-- `cache_parameters()` (`func.py` line 86): the construction-time
`{"maxsize": maxsize, "typed": typed}` dictionary. -/
def cacheParameters (cfg : DecoratorCfg) : Option Nat × Bool :=
  (cfg.maxsize, cfg.typed)

/-! ## TTL cache model

`TTLCache` itself is not among the sources under scrutiny; `_UnboundTTLCache`
(`func.py` lines 20-26) constructs it with capacity `math.inf`.  The model
below follows the spec: entries carry an absolute expiry timestamp; a lookup
treats an entry as absent once current time ≥ its expiry and lazily removes
it; a store first drops expired entries and then, while over capacity,
evicts entries with the nearest expiry; an unbounded capacity
(`capacity = none`, i.e. `math.inf`) means size-based eviction never
triggers. -/

/-- Modelled from the spec: a TTL cache.  `capacity = none` models
`math.inf` (the unbounded variant). -/
structure TTLModel (K V : Type) where
  capacity : Option Nat
  ttl : Nat
  entries : List (K × V × Nat)

/-- An entry is expired once current time ≥ its expiry timestamp. -/
def ttlExpired (now : Nat) (e : Nat) : Bool :=
  e ≤ now

/-- Modelled from the spec: TTL lookup at time `now`: an expired entry is
treated as absent and lazily removed; a live entry is returned. -/
def ttlGet {K V : Type} [DecidableEq K] (c : TTLModel K V) (k : K) (now : Nat) :
    Option V × TTLModel K V :=
  match c.entries.find? (fun e => e.1 = k) with
  | none => (none, c)
  | some (_, v, exp) =>
    if ttlExpired now exp then
      (none, { c with entries := c.entries.eraseP (fun e => e.1 = k) })
    else (some v, c)

/-- Remove the entry whose expiry is smallest (the nearest-expiry victim);
on an empty list, do nothing. -/
def ttlEvictNearest {K V : Type} (l : List (K × V × Nat)) : List (K × V × Nat) :=
  match l.argmin (fun e => e.2.2) with
  | none => l
  | some m => l.eraseP (fun e => decide (e.2.2 = m.2.2))

/-- Evict nearest-expiry entries until at most `cap` remain. -/
def ttlShrink {K V : Type} (cap : Nat) : Nat → List (K × V × Nat) → List (K × V × Nat)
  | 0, l => l
  | fuel + 1, l => if l.length ≤ cap then l else ttlShrink cap fuel (ttlEvictNearest l)

/-- Modelled from the spec: TTL store at time `now`: drop expired entries,
remove any old binding of the key, make room by evicting nearest-expiry
entries when a finite capacity is exceeded (never when the capacity is
unbounded), then insert with expiry `now + ttl`. -/
def ttlPut {K V : Type} [DecidableEq K] (c : TTLModel K V) (k : K) (v : V) (now : Nat) :
    TTLModel K V :=
  let live := (c.entries.filter (fun e => !ttlExpired now e.2.2)).eraseP (fun e => e.1 = k)
  let room :=
    match c.capacity with
    | none => live
    | some cap => ttlShrink (cap - 1) live.length live
  { c with entries := room ++ [(k, v, now + c.ttl)] }

/-! ## The wrapper object (for `cache_parameters` immutability)

`functools.update_wrapper(wrapper, func)` returns the wrapper carrying the
closed-over mutable state plus the immutable construction configuration.
The public mutating operations are calls and `cache_clear()`. -/

/-- A constructed memoized callable: the immutable construction
configuration together with the mutable closed-over state. -/
structure Wrapper (σ K : Type) where
  cfg : DecoratorCfg
  st : WState σ K

/-- A public mutating operation on a wrapper: a memoized call or
`cache_clear()`. -/
inductive WOp (α : Type)
  | call : α → WOp α
  | clear : WOp α

/-- Apply one public operation to a wrapper.  A call that would block, or
whose computation raises, still only touches the mutable state. -/
def applyOp {σ K V E α : Type} (beq : K → K → Bool) (ops : CacheOps σ K V)
    (keyf : α → K) (f : α → Except E V) (w : Wrapper σ K) : WOp α → Wrapper σ K
  | .call a =>
    match wrapperCall beq ops keyf f w.st a with
    | none => w
    | some (_, s1, _) => { w with st := s1 }
  | .clear => { w with st := cacheClear ops w.st }

/-- Apply a sequence of public operations to a wrapper. -/
def runOps {σ K V E α : Type} (beq : K → K → Bool) (ops : CacheOps σ K V)
    (keyf : α → K) (f : α → Except E V) : Wrapper σ K → List (WOp α) → Wrapper σ K
  | w, [] => w
  | w, op :: rest => runOps beq ops keyf f (applyOp beq ops keyf f w op) rest

/-! ## Two-thread interleaving semantics of `wrapper`

For the concurrency guarantees we give `wrapper` a small-step semantics.
Every region of the Python code that runs while holding `cond` is a single
atomic step (the code never holds the lock across the computation, so this
is the standard atomicity reduction); the computation itself (`func(*args)`)
is a separate step touching no shared state, which is exactly "the
computation runs with the lock released".  Two threads, each performing one
call, interleave freely. -/

/-- Where a thread is in the per-call protocol of `wrapper`. -/
inductive Phase (E V : Type)
  | start : Phase E V
  | computing : Phase E V
  | computed : Except E V → Phase E V
  | stored : V → Phase E V
  | done : Bool → V → Phase E V
  | failed : E → Phase E V

/-- The state shared between threads: the `pending` set, the cache, and
the counters — everything guarded by `cond`. -/
structure Shared (K V : Type) where
  pending : List K
  cache : List (K × V)
  hits : Nat
  misses : Nat

/-- One step of a single thread whose derived key is `k`, following
`func.py` lines 40-61.  The last index counts executions of the underlying
computation in this step (1 for the `compute` step, 0 otherwise).

* `checkHit`/`checkMiss`: the atomic region of lines 40-49 — enabled, as
  `cond.wait_for` demands, only when `k` is not pending;
* `compute`: `v = func(*args)`, run outside the lock, no shared state read
  or written;
* `storeOk`/`storeFail`: the atomic region `with cond: cache[k] = v`, where
  a too-large value raises `ValueError`, which is swallowed leaving the
  cache unchanged;
* `releaseOk`/`releaseErr`: the `finally` region — remove `k` from
  `pending` and notify all waiters; on an exception from `func` the store
  region is skipped and the exception propagates. -/
inductive TStep {K V E : Type} [DecidableEq K] (f : K → Except E V) (fits : V → Bool)
    (k : K) : Phase E V → Shared K V → Phase E V → Shared K V → Nat → Prop
  | checkHit (sh : Shared K V) (v : V) :
      k ∉ sh.pending → lookupA sh.cache k = some v →
      TStep f fits k .start sh (.done true v) { sh with hits := sh.hits + 1 } 0
  | checkMiss (sh : Shared K V) :
      k ∉ sh.pending → lookupA sh.cache k = none →
      TStep f fits k .start sh .computing
        { sh with misses := sh.misses + 1, pending := k :: sh.pending } 0
  | compute (sh : Shared K V) :
      TStep f fits k .computing sh (.computed (f k)) sh 1
  | storeOk (sh : Shared K V) (v : V) :
      fits v = true →
      TStep f fits k (.computed (.ok v)) sh (.stored v)
        { sh with cache := insertA sh.cache k v } 0
  | storeFail (sh : Shared K V) (v : V) :
      fits v = false →
      TStep f fits k (.computed (.ok v)) sh (.stored v) sh 0
  | releaseOk (sh : Shared K V) (v : V) :
      TStep f fits k (.stored v) sh (.done false v)
        { sh with pending := sh.pending.erase k } 0
  | releaseErr (sh : Shared K V) (e : E) :
      TStep f fits k (.computed (.error e)) sh (.failed e)
        { sh with pending := sh.pending.erase k } 0

/-- A two-thread system state: the shared state, each thread's phase, and
the total number of executions of the underlying computation so far. -/
structure CState (K V E : Type) where
  sh : Shared K V
  ph1 : Phase E V
  ph2 : Phase E V
  execs : Nat

/-- One interleaving step of the two-thread system: either thread moves. -/
inductive CStep {K V E : Type} [DecidableEq K] (f : K → Except E V) (fits : V → Bool)
    (k1 k2 : K) : CState K V E → CState K V E → Prop
  | left (s : CState K V E) (ph : Phase E V) (sh : Shared K V) (n : Nat) :
      TStep f fits k1 s.ph1 s.sh ph sh n →
      CStep f fits k1 k2 s ⟨sh, ph, s.ph2, s.execs + n⟩
  | right (s : CState K V E) (ph : Phase E V) (sh : Shared K V) (n : Nat) :
      TStep f fits k2 s.ph2 s.sh ph sh n →
      CStep f fits k1 k2 s ⟨sh, s.ph1, ph, s.execs + n⟩

/-- Both threads at the start of a call, empty cache, nothing pending. -/
def initialCState (K V E : Type) : CState K V E :=
  ⟨⟨[], [], 0, 0⟩, .start, .start, 0⟩

/-- Reachability in the two-thread system. -/
def ReachC {K V E : Type} [DecidableEq K] (f : K → Except E V) (fits : V → Bool)
    (k1 k2 : K) : CState K V E → CState K V E → Prop :=
  Relation.ReflTransGen (CStep f fits k1 k2)

/-- The thread is between its miss-check and its `pending` release: its
computation is in flight. -/
def Phase.isActive {E V : Type} : Phase E V → Bool
  | .computing => true
  | .computed _ => true
  | .stored _ => true
  | _ => false

/-- The thread took (or, done via a hit, did not take) the miss path. -/
def Phase.isMissy {E V : Type} : Phase E V → Bool
  | .computing => true
  | .computed _ => true
  | .stored _ => true
  | .done hit _ => !hit
  | _ => false

/-- The thread's successful store has already happened. -/
def Phase.isPoststore {E V : Type} : Phase E V → Bool
  | .stored _ => true
  | .done hit _ => !hit
  | _ => false

/-- The thread finished via the cache-hit path. -/
def Phase.isHitDone {E V : Type} : Phase E V → Bool
  | .done hit _ => hit
  | _ => false

/-- How many computation executions this thread has performed. -/
def Phase.execCount {E V : Type} : Phase E V → Nat
  | .computed _ => 1
  | .stored _ => 1
  | .done hit _ => if hit then 0 else 1
  | _ => 0

/-- Every payload carried by the phase is the unique value `v` computed for
the key (and the computation never failed). -/
def Phase.goodFor {E V : Type} (v : V) : Phase E V → Prop
  | .start => True
  | .computing => True
  | .computed r => r = .ok v
  | .stored w => w = v
  | .done _ w => w = v
  | .failed _ => False

/-- The inductive invariant of the same-key two-thread system (both keys
equal to `k`, `f k = .ok v`, `v` small enough to store), stated for an
ordered pair of thread phases: at most one thread is past the miss check,
`pending` holds exactly the key of the in-flight computation, the cache
becomes `[(k, v)]` at the first successful store, a hit can only have
happened after the other thread stored, and the execution count equals the
number of threads past their `compute` step. -/
def InvPair {K V E : Type} (k : K) (v : V) (pa pb : Phase E V) (sh : Shared K V)
    (ex : Nat) : Prop :=
  pa.goodFor v ∧ pb.goodFor v ∧
  ¬(pa.isMissy = true ∧ pb.isMissy = true) ∧
  sh.pending = (if pa.isActive || pb.isActive then [k] else []) ∧
  sh.cache = (if pa.isPoststore || pb.isPoststore then [(k, v)] else []) ∧
  (pa.isHitDone = true → pb.isPoststore = true) ∧
  (pb.isHitDone = true → pa.isPoststore = true) ∧
  ex = pa.execCount + pb.execCount

/-- The same-key invariant of a two-thread system state. -/
def SameKeyInv {K V E : Type} (k : K) (v : V) (s : CState K V E) : Prop :=
  InvPair k v s.ph1 s.ph2 s.sh s.execs

theorem invPair_swap {K V E : Type} {k : K} {v : V} {pa pb : Phase E V}
    {sh : Shared K V} {ex : Nat} (h : InvPair k v pa pb sh ex) :
    InvPair k v pb pa sh ex := by
  obtain ⟨g1, g2, hm, hp, hc, hh1, hh2, he⟩ := h
  refine ⟨g2, g1, fun hx => hm ⟨hx.2, hx.1⟩, ?_, ?_, hh2, hh1, ?_⟩
  · rw [hp, Bool.or_comm]
  · rw [hc, Bool.or_comm]
  · omega

theorem invPair_step {K V E : Type} [DecidableEq K] {f : K → Except E V}
    {fits : V → Bool} {k : K} {v : V} (hf : f k = .ok v) (hfits : fits v = true)
    {pa pa' pb : Phase E V} {sh sh' : Shared K V} {n ex : Nat}
    (hstep : TStep f fits k pa sh pa' sh' n)
    (hinv : InvPair k v pa pb sh ex) :
    InvPair k v pa' pb sh' (ex + n) := by
  obtain ⟨g1, g2, hm, hp, hc, hh1, hh2, he⟩ := hinv
  cases hstep with
  | checkHit sh0 v0 hnp hlook =>
    rcases pb with _ | _ | r | w | ⟨hit, w⟩ | e <;>
      simp_all [InvPair, Phase.goodFor, Phase.isActive, Phase.isMissy,
        Phase.isPoststore, Phase.isHitDone, Phase.execCount, lookupA]
  | checkMiss sh0 hnp hlook =>
    rcases pb with _ | _ | r | w | ⟨hit, w⟩ | e <;>
      simp_all [InvPair, Phase.goodFor, Phase.isActive, Phase.isMissy,
        Phase.isPoststore, Phase.isHitDone, Phase.execCount, lookupA]
  | compute sh0 =>
    rcases pb with _ | _ | r | w | ⟨hit, w⟩ | e <;>
      simp_all [InvPair, Phase.goodFor, Phase.isActive, Phase.isMissy,
        Phase.isPoststore, Phase.isHitDone, Phase.execCount, hf]
  | storeOk sh0 v0 hfit =>
    rcases pb with _ | _ | r | w | ⟨hit, w⟩ | e <;>
      simp_all [InvPair, Phase.goodFor, Phase.isActive, Phase.isMissy,
        Phase.isPoststore, Phase.isHitDone, Phase.execCount, insertA]
  | storeFail sh0 v0 hfit =>
    simp_all [Phase.goodFor]
  | releaseOk sh0 v0 =>
    rcases pb with _ | _ | r | w | ⟨hit, w⟩ | e <;>
      simp_all [InvPair, Phase.goodFor, Phase.isActive, Phase.isMissy,
        Phase.isPoststore, Phase.isHitDone, Phase.execCount,
        List.erase_cons_head]
  | releaseErr sh0 e =>
    simp_all [Phase.goodFor]

/-! ## Unfolding lemmas for the sequential wrapper -/

theorem wrapperCall_hit {σ K V E α : Type} (beq : K → K → Bool) (ops : CacheOps σ K V)
    (keyf : α → K) (f : α → Except E V) (s : WState σ K) (args : α) (v : V)
    (hb : s.pending.any (beq (keyf args)) = false)
    (hl : ops.lookup s.cache (keyf args) = some v) :
    wrapperCall beq ops keyf f s args =
      some (.ok v, { s with hits := s.hits + 1 }, []) := by
  simp [wrapperCall, hb, hl]

theorem wrapperCall_miss_ok {σ K V E α : Type} (beq : K → K → Bool)
    (ops : CacheOps σ K V) (keyf : α → K) (f : α → Except E V) (s : WState σ K)
    (args : α) (v : V)
    (hb : s.pending.any (beq (keyf args)) = false)
    (hl : ops.lookup s.cache (keyf args) = none)
    (hf : f args = .ok v) :
    wrapperCall beq ops keyf f s args =
      some (.ok v,
        ⟨(ops.put s.cache (keyf args) v).getD s.cache,
          (keyf args :: s.pending).eraseP (beq (keyf args)),
          s.hits, s.misses + 1⟩,
        [.addPending (keyf args), .removePending (keyf args), .notifyAll]) := by
  simp [wrapperCall, hb, hl, hf]

theorem wrapperCall_miss_raise {σ K V E α : Type} (beq : K → K → Bool)
    (ops : CacheOps σ K V) (keyf : α → K) (f : α → Except E V) (s : WState σ K)
    (args : α) (e : E)
    (hb : s.pending.any (beq (keyf args)) = false)
    (hl : ops.lookup s.cache (keyf args) = none)
    (hf : f args = .error e) :
    wrapperCall beq ops keyf f s args =
      some (.error e,
        ⟨s.cache, (keyf args :: s.pending).eraseP (beq (keyf args)),
          s.hits, s.misses + 1⟩,
        [.addPending (keyf args), .removePending (keyf args), .notifyAll]) := by
  simp [wrapperCall, hb, hl, hf]

theorem eraseP_keeps_of_neg {β : Type} (p : β → Bool) :
    ∀ (l : List β) (x : β), x ∈ l → p x = false → x ∈ l.eraseP p
  | a :: t, x, hx, hpx => by
    by_cases ha : p a = true
    · rw [List.eraseP_cons_of_pos ha]
      rcases List.mem_cons.mp hx with h | h
      · subst h; rw [hpx] at ha; cases ha
      · exact h
    · rw [List.eraseP_cons, Bool.eq_false_iff.mpr ha]
      simp only [cond_false]
      rcases List.mem_cons.mp hx with h | h
      · exact h ▸ List.mem_cons_self x _
      · exact List.mem_cons_of_mem a (eraseP_keeps_of_neg p t x h hpx)

/-! ## Hit/miss accounting over the unbounded `dict` fallback -/

theorem mem_map_fst_insertA {K V : Type} [DecidableEq K] (c : List (K × V)) (k : K)
    (v : V) (x : K) (hx : x ∈ (insertA c k v).map Prod.fst) :
    x = k ∨ x ∈ c.map Prod.fst := by
  induction c with
  | nil => simp [insertA] at hx; simp [hx]
  | cons q u ihu =>
    obtain ⟨qa, qb⟩ := q
    by_cases hqk : qa = k
    · subst hqk
      simp [insertA] at hx
      rcases hx with hx | hx
      · simp [hx]
      · simp
        tauto
    · simp [insertA, hqk] at hx
      rcases hx with hx | hx
      · simp [hx]
      · rcases ihu (by simpa using hx) with h1 | h1
        · exact Or.inl h1
        · simp at h1 ⊢
          tauto

theorem nodupKeys_insertA {K V : Type} [DecidableEq K] (c : List (K × V)) (k : K)
    (v : V) (h : (c.map Prod.fst).Nodup) :
    ((insertA c k v).map Prod.fst).Nodup := by
  induction c with
  | nil => simp [insertA]
  | cons p t ih =>
    obtain ⟨a, b⟩ := p
    by_cases hak : a = k
    · subst hak
      simpa [insertA] using h
    · simp only [insertA, if_neg hak, List.map_cons, List.nodup_cons] at h ⊢
      refine ⟨fun hmem => ?_, ih h.2⟩
      rcases mem_map_fst_insertA t k v a hmem with h1 | h1
      · exact hak h1
      · exact h.1 h1

theorem length_eq_card_domA {K V : Type} [DecidableEq K] (c : List (K × V))
    (h : (c.map Prod.fst).Nodup) : c.length = (domA c).card := by
  have := List.toFinset_card_of_nodup h
  simp only [domA]
  rw [this, List.length_map]

/-- Structural Boolean equality on keys (adequate when the key type's `==`
coincides with structural equality, e.g. for hashable tuples of plain
values). -/
def eqKey {K : Type} [DecidableEq K] : K → K → Bool := fun a b => decide (a = b)

/-- Running any sequence of calls on the unbounded `dict` fallback with a
never-raising computation: no call blocks, `pending` stays empty, every call
bumps exactly one counter (so `hits + misses` grows by the number of calls),
`misses` grows by the number of derived keys not already cached, and the
cached keys afterwards are exactly the old ones plus the derived keys. -/
theorem runCalls_dict {K V E α : Type} [DecidableEq K] (keyf : α → K) (g : α → V) :
    ∀ (calls : List α) (s : WState (List (K × V)) K),
      s.pending = [] → (s.cache.map Prod.fst).Nodup →
      ∃ s' : WState (List (K × V)) K,
        runCalls eqKey (dictOps K V) keyf (fun a => (Except.ok (g a) : Except E V))
            s calls = some s' ∧
        s'.pending = [] ∧
        (s'.cache.map Prod.fst).Nodup ∧
        s'.hits + s'.misses = s.hits + s.misses + calls.length ∧
        s'.misses = s.misses +
          (((calls.map keyf).toFinset ∪ domA s.cache).card - (domA s.cache).card) ∧
        domA s'.cache = (calls.map keyf).toFinset ∪ domA s.cache
  | [], s, hpend, hnd => by
    refine ⟨s, rfl, hpend, hnd, by simp, ?_, by simp⟩
    simp
  | a :: rest, s, hpend, hnd => by
    have hb : s.pending.any (eqKey (keyf a)) = false := by simp [hpend]
    rcases hl : lookupA s.cache (keyf a) with _ | v
    · -- miss: insert and recurse
      have hcall := wrapperCall_miss_ok eqKey (dictOps K V) keyf
        (fun a => (Except.ok (g a) : Except E V)) s a (g a) hb (by simpa [dictOps] using hl) rfl
      have herase : ((keyf a :: s.pending).eraseP (eqKey (keyf a))) = s.pending := by
        rw [List.eraseP_cons_of_pos (by simp [eqKey])]
      set s1 : WState (List (K × V)) K :=
        ⟨insertA s.cache (keyf a) (g a), s.pending, s.hits, s.misses + 1⟩ with hs1
      have hcall2 : wrapperCall eqKey (dictOps K V) keyf
          (fun a => (Except.ok (g a) : Except E V)) s a =
          some (.ok (g a), s1, [.addPending (keyf a), .removePending (keyf a), .notifyAll]) := by
        rw [hcall, herase]
        rfl
      obtain ⟨s', hrun, hpend', hnd', hcount, hmiss, hdom⟩ :=
        runCalls_dict keyf g rest s1 hpend (nodupKeys_insertA _ _ _ hnd)
      refine ⟨s', ?_, hpend', hnd', by simp at hcount ⊢; omega, ?_, ?_⟩
      · simp only [runCalls, hcall2]
        exact hrun
      · have hkd : keyf a ∉ domA s.cache := (lookupA_eq_none_iff _ _).mp hl
        have hdom1 : domA s1.cache = insert (keyf a) (domA s.cache) := by
          simp [hs1, domA_insertA]
        rw [hdom1] at hmiss
        have habs : ((rest.map keyf).toFinset ∪ insert (keyf a) (domA s.cache)) =
            insert (keyf a) ((rest.map keyf).toFinset ∪ domA s.cache) :=
          Finset.union_insert _ _ _
        have hins : (((a :: rest).map keyf).toFinset ∪ domA s.cache) =
            insert (keyf a) ((rest.map keyf).toFinset ∪ domA s.cache) := by
          simp [Finset.insert_union]
        have hcard1 : (insert (keyf a) (domA s.cache)).card = (domA s.cache).card + 1 :=
          Finset.card_insert_of_not_mem hkd
        have hsub : insert (keyf a) (domA s.cache) ⊆
            insert (keyf a) ((rest.map keyf).toFinset ∪ domA s.cache) :=
          Finset.insert_subset_insert _ Finset.subset_union_right
        have hle : (insert (keyf a) (domA s.cache)).card ≤
            (insert (keyf a) ((rest.map keyf).toFinset ∪ domA s.cache)).card :=
          Finset.card_le_card hsub
        rw [habs] at hmiss
        rw [hins]
        simp only [hs1] at hmiss
        omega
      · have hdom1 : domA s1.cache = insert (keyf a) (domA s.cache) := by
          simp [hs1, domA_insertA]
        rw [hdom1, Finset.union_insert] at hdom
        rw [hdom]
        simp [Finset.insert_union]
    · -- hit: bump hits and recurse
      have hcall := wrapperCall_hit eqKey (dictOps K V) keyf
        (fun a => (Except.ok (g a) : Except E V)) s a v hb (by simpa [dictOps] using hl)
      obtain ⟨s', hrun, hpend', hnd', hcount, hmiss, hdom⟩ :=
        runCalls_dict keyf g rest { s with hits := s.hits + 1 } hpend hnd
      have hkd : keyf a ∈ domA s.cache := by
        by_contra hk
        rw [← lookupA_eq_none_iff] at hk
        rw [hk] at hl
        cases hl
      have habs : (((a :: rest).map keyf).toFinset ∪ domA s.cache) =
          ((rest.map keyf).toFinset ∪ domA s.cache) := by
        simp only [List.map_cons, List.toFinset_cons, Finset.insert_union]
        exact Finset.insert_eq_self.mpr (Finset.mem_union_right _ hkd)
      refine ⟨s', ?_, hpend', hnd', by simp at hcount ⊢; omega, ?_, ?_⟩
      · simp only [runCalls, hcall]
        exact hrun
      · rw [habs]
        simpa using hmiss
      · rw [habs]
        simpa using hdom

/-! ## Reachability corollaries for the two-thread system -/

theorem sameKeyInv_initial {K V E : Type} (k : K) (v : V) :
    SameKeyInv k v (initialCState K V E) := by
  refine ⟨trivial, trivial, ?_, ?_, ?_, ?_, ?_, rfl⟩ <;>
    simp [initialCState, Phase.isMissy, Phase.isActive, Phase.isPoststore,
      Phase.isHitDone]

theorem sameKeyInv_reach {K V E : Type} [DecidableEq K] {f : K → Except E V}
    {fits : V → Bool} {k : K} {v : V} (hf : f k = .ok v) (hfits : fits v = true)
    {s0 s : CState K V E} (h : ReachC f fits k k s0 s) (h0 : SameKeyInv k v s0) :
    SameKeyInv k v s := by
  induction h with
  | refl => exact h0
  | tail _ hstep ih =>
    cases hstep with
    | left ph sh n hts => exact invPair_step hf hfits hts ih
    | right ph sh n hts =>
      exact invPair_swap (invPair_step hf hfits hts (invPair_swap ih))

theorem missy_of_active {E V : Type} (p : Phase E V) (h : p.isActive = true) :
    p.isMissy = true := by
  cases p <;> simp_all [Phase.isActive, Phase.isMissy]

/-! ## TTL model lemmas -/

theorem ttlPut_unbounded_keeps {K V : Type} [DecidableEq K] (c : TTLModel K V)
    (k : K) (v : V) (now : Nat) (hcap : c.capacity = none) (x : K × V × Nat)
    (hx : x ∈ c.entries) (hlive : ttlExpired now x.2.2 = false) (hk : x.1 ≠ k) :
    x ∈ (ttlPut c k v now).entries := by
  unfold ttlPut
  rw [hcap]
  apply List.mem_append_left
  apply eraseP_keeps_of_neg _ _ x
  · exact List.mem_filter.mpr ⟨hx, by simp [hlive]⟩
  · simp [hk]

theorem ttlGet_keeps_other {K V : Type} [DecidableEq K] (c : TTLModel K V)
    (k : K) (now : Nat) (x : K × V × Nat) (hx : x ∈ c.entries) (hk : x.1 ≠ k) :
    x ∈ (ttlGet c k now).2.entries := by
  rcases hfind : c.entries.find? (fun e => e.1 = k) with _ | ⟨k1, v1, e1⟩
  · simp only [ttlGet, hfind]
    exact hx
  · by_cases hexp : ttlExpired now e1 = true
    · simp only [ttlGet, hfind, hexp, if_true]
      exact eraseP_keeps_of_neg _ _ x hx (by simp [hk])
    · simp only [ttlGet, hfind, hexp, if_false]
      exact hx

theorem ttlGet_expired_absent {K V : Type} [DecidableEq K] (c : TTLModel K V)
    (k k1 : K) (v1 : V) (e1 now : Nat)
    (hfind : c.entries.find? (fun e => e.1 = k) = some (k1, v1, e1))
    (hexp : ttlExpired now e1 = true) :
    (ttlGet c k now).1 = none := by
  simp [ttlGet, hfind, hexp]

theorem ttlGet_live_found {K V : Type} [DecidableEq K] (c : TTLModel K V)
    (k k1 : K) (v1 : V) (e1 now : Nat)
    (hfind : c.entries.find? (fun e => e.1 = k) = some (k1, v1, e1))
    (hexp : ttlExpired now e1 = false) :
    (ttlGet c k now).1 = some v1 ∧ (ttlGet c k now).2 = c := by
  simp [ttlGet, hfind, hexp]

/-! ## Wrapper-object lemmas -/

theorem applyOp_cfg {σ K V E α : Type} (beq : K → K → Bool) (ops : CacheOps σ K V)
    (keyf : α → K) (f : α → Except E V) (w : Wrapper σ K) (op : WOp α) :
    (applyOp beq ops keyf f w op).cfg = w.cfg := by
  cases op with
  | call a =>
    rcases h : wrapperCall beq ops keyf f w.st a with _ | ⟨r, s1, ev⟩ <;>
      simp [applyOp, h]
  | clear => rfl

theorem runOps_cfg {σ K V E α : Type} (beq : K → K → Bool) (ops : CacheOps σ K V)
    (keyf : α → K) (f : α → Except E V) :
    ∀ (l : List (WOp α)) (w : Wrapper σ K),
      (runOps beq ops keyf f w l).cfg = w.cfg
  | [], _ => rfl
  | op :: rest, w => by
    rw [runOps, runOps_cfg beq ops keyf f rest, applyOp_cfg]

/-! ## The claims -/

/-- C10: when any of the six decorator constructors is given a callable as
its `maxsize` argument (bare-decorator usage), that callable is treated as
the function to wrap, a bounded cache with the default capacity 128 is used,
and `cache_parameters()` reports `maxsize` as 128. -/
theorem C10_bare_decorator_default_capacity {F : Type} (f : F) (typed : Bool)
    (ttl : Nat) :
    fifoCacheCtor (.fn f) typed = .wrapped ⟨.fifo 128, some 128, typed⟩ f ∧
    lfuCacheCtor (.fn f) typed = .wrapped ⟨.lfu 128, some 128, typed⟩ f ∧
    lruCacheCtor (.fn f) typed = .wrapped ⟨.lru 128, some 128, typed⟩ f ∧
    mruCacheCtor (.fn f) typed = .wrapped ⟨.mru 128, some 128, typed⟩ f ∧
    rrCacheCtor (.fn f) typed = .wrapped ⟨.rr 128, some 128, typed⟩ f ∧
    ttlCacheCtor (.fn f) ttl typed = .wrapped ⟨.ttl 128 ttl, some 128, typed⟩ f ∧
    cacheParameters ⟨.fifo 128, some 128, typed⟩ = (some 128, typed) ∧
    cacheParameters ⟨.ttl 128 ttl, some 128, typed⟩ = (some 128, typed) :=
  ⟨rfl, rfl, rfl, rfl, rfl, rfl, rfl, rfl⟩

/-- C9: `cache_parameters()` returns exactly the construction-time
`{maxsize, typed}` configuration; the configuration is unaffected by any
sequence of calls (blocking, succeeding, or raising) and `cache_clear()`
invocations. -/
theorem C9_cache_parameters_immutable {σ K V E α F : Type} (beq : K → K → Bool)
    (ops : CacheOps σ K V) (keyf : α → K) (f : α → Except E V) :
    (∀ (w : Wrapper σ K) (l : List (WOp α)),
        (runOps beq ops keyf f w l).cfg = w.cfg ∧
        cacheParameters (runOps beq ops keyf f w l).cfg =
          (w.cfg.maxsize, w.cfg.typed)) ∧
    (∀ cfg : DecoratorCfg, cacheParameters cfg = (cfg.maxsize, cfg.typed)) ∧
    (∀ (n : Nat) (typed : Bool),
        fifoCacheCtor (F := F) (.num n) typed = .decorator ⟨.fifo n, some n, typed⟩ ∧
        cacheParameters ⟨.fifo n, some n, typed⟩ = (some n, typed) ∧
        fifoCacheCtor (F := F) .unbounded typed = .decorator ⟨.dict, none, typed⟩ ∧
        cacheParameters ⟨.dict, none, typed⟩ = (none, typed)) := by
  refine ⟨fun w l => ⟨runOps_cfg beq ops keyf f l w, ?_⟩, fun cfg => rfl,
    fun n typed => ⟨rfl, rfl, rfl, rfl⟩⟩
  rw [runOps_cfg beq ops keyf f l w]
  rfl

/-- C7: `ttl_cache` constructed with the unbounded sentinel uses the
unbounded TTL cache (capacity conceptually infinite): size-based eviction
never removes a live entry on `put`, lookups remove only expired entries
(expiry checked lazily: an expired entry is treated as absent, a live one is
returned with the cache untouched), and the reported `maxsize` is absent;
the other five policies with the unbounded sentinel fall back to the plain
unbounded map. -/
theorem C7_ttl_unbounded_variant {K V F : Type} [DecidableEq K] (ttl : Nat)
    (typed : Bool) :
    ttlCacheCtor (F := F) .unbounded ttl typed =
      .decorator ⟨.unboundTTL ttl, none, typed⟩ ∧
    reportedMaxsize (.unboundTTL ttl) = none ∧
    (∀ (c : TTLModel K V) (k : K) (v : V) (now : Nat) (x : K × V × Nat),
        c.capacity = none → x ∈ c.entries → ttlExpired now x.2.2 = false →
        x.1 ≠ k → x ∈ (ttlPut c k v now).entries) ∧
    (∀ (c : TTLModel K V) (k : K) (now : Nat) (x : K × V × Nat),
        x ∈ c.entries → x.1 ≠ k → x ∈ (ttlGet c k now).2.entries) ∧
    (∀ (c : TTLModel K V) (k k1 : K) (v1 : V) (e1 now : Nat),
        c.entries.find? (fun e => e.1 = k) = some (k1, v1, e1) →
        ttlExpired now e1 = true → (ttlGet c k now).1 = none) ∧
    (∀ (c : TTLModel K V) (k k1 : K) (v1 : V) (e1 now : Nat),
        c.entries.find? (fun e => e.1 = k) = some (k1, v1, e1) →
        ttlExpired now e1 = false →
        (ttlGet c k now).1 = some v1 ∧ (ttlGet c k now).2 = c) ∧
    (fifoCacheCtor (F := F) .unbounded typed = .decorator ⟨.dict, none, typed⟩ ∧
      lfuCacheCtor (F := F) .unbounded typed = .decorator ⟨.dict, none, typed⟩ ∧
      lruCacheCtor (F := F) .unbounded typed = .decorator ⟨.dict, none, typed⟩ ∧
      mruCacheCtor (F := F) .unbounded typed = .decorator ⟨.dict, none, typed⟩ ∧
      rrCacheCtor (F := F) .unbounded typed = .decorator ⟨.dict, none, typed⟩) :=
  ⟨rfl, rfl,
    fun c k v now x hcap hx hlive hk => ttlPut_unbounded_keeps c k v now hcap x hx hlive hk,
    fun c k now x hx hk => ttlGet_keeps_other c k now x hx hk,
    fun c k k1 v1 e1 now hfind hexp => ttlGet_expired_absent c k k1 v1 e1 now hfind hexp,
    fun c k k1 v1 e1 now hfind hexp => ttlGet_live_found c k k1 v1 e1 now hfind hexp,
    rfl, rfl, rfl, rfl, rfl⟩

/-- Witness for C7 at concrete inputs: an unbounded TTL cache holding a
live entry with a different key keeps it across a `put`, and an expired
entry is absent from a lookup. -/
theorem C7_ttl_unbounded_variant_witness :
    ((TTLModel.mk (K := Nat) (V := Nat) none 5 [(2, 9, 10)]).capacity = none ∧
      (2, 9, 10) ∈ (TTLModel.mk (K := Nat) (V := Nat) none 5 [(2, 9, 10)]).entries ∧
      ttlExpired 7 10 = false ∧ (2 : Nat) ≠ 1) ∧
    (2, 9, 10) ∈ (ttlPut (TTLModel.mk (K := Nat) (V := Nat) none 5 [(2, 9, 10)]) 1 4 7).entries := by
  refine ⟨⟨rfl, by decide, by decide, by decide⟩, ?_⟩
  exact (C7_ttl_unbounded_variant (K := Nat) (V := Nat) (F := Unit) 5 false).2.2.1
    (TTLModel.mk none 5 [(2, 9, 10)]) 1 4 7 (2, 9, 10) rfl (by decide) (by decide) (by decide)

/-- C5 counterexample: `cache_clear()` does not reset the `PendingSet`.
`cache_clear` (`func.py` lines 63-67) runs `cache.clear()` and zeroes the
counters but leaves `pending` untouched: from a state with pending key `0`,
the pending set is still nonempty afterwards, refuting the claim that
`cache_clear()` resets both the backing cache and the PendingSet. -/
theorem C5_counterexample_pending_survives_clear :
    (cacheClear (dictOps Nat Nat) ⟨[(1, 2)], [0], 3, 4⟩).pending ≠ [] := by
  decide

/-- C5 (amended): `cache_clear()` resets the backing cache and zeroes both
counters without destroying the wrapper, leaving the `PendingSet` untouched;
immediately afterwards `cache_info()` reports zero hits, zero misses and
zero current size, and a subsequent call with a previously-cached key is a
fresh miss. -/
theorem C5_clear_resets_cache_and_counters {σ K V E α : Type} [DecidableEq K]
    (keyf : α → K) (g : α → V) :
    (∀ (ops : CacheOps σ K V) (s : WState σ K),
        cacheClear ops s = ⟨ops.clr s.cache, s.pending, 0, 0⟩) ∧
    (∀ s : WState (List (K × V)) K,
        cacheInfoDict (dictOps K V) (cacheClear (dictOps K V) s) = ⟨0, 0, none, 0⟩) ∧
    (∀ (s : WState (List (K × V)) K) (args : α) (v : V),
        s.pending.any (eqKey (keyf args)) = false →
        lookupA s.cache (keyf args) = some v →
        wrapperCall eqKey (dictOps K V) keyf (fun a => (Except.ok (g a) : Except E V))
            (cacheClear (dictOps K V) s) args =
          some (.ok (g args), ⟨[(keyf args, g args)], s.pending, 0, 1⟩,
            [.addPending (keyf args), .removePending (keyf args), .notifyAll])) := by
  refine ⟨fun ops s => rfl, fun s => rfl, fun s args v hb _ => ?_⟩
  have hcall := wrapperCall_miss_ok eqKey (dictOps K V) keyf
    (fun a => (Except.ok (g a) : Except E V)) (cacheClear (dictOps K V) s) args
    (g args) (by simpa [cacheClear] using hb) rfl rfl
  rw [hcall]
  have herase : ((keyf args :: (cacheClear (dictOps K V) s).pending).eraseP
      (eqKey (keyf args))) = s.pending := by
    rw [List.eraseP_cons_of_pos (by simp [eqKey])]
    rfl
  rw [herase]
  rfl

/-- Witness for C5 (amended) at concrete inputs: clearing a wrapper state
that cached key `5`, then calling with key `5` again, is a fresh miss. -/
theorem C5_clear_resets_cache_and_counters_witness :
    (([] : List Nat).any (eqKey 5) = false ∧
      lookupA [(5, 7)] 5 = some 7) ∧
    wrapperCall eqKey (dictOps Nat Nat) id (fun a => (Except.ok a : Except Unit Nat))
        (cacheClear (dictOps Nat Nat) ⟨[(5, 7)], [], 1, 1⟩) 5 =
      some (.ok 5, ⟨[(5, 5)], [], 0, 1⟩,
        [.addPending 5, .removePending 5, .notifyAll]) :=
  ⟨⟨rfl, by decide⟩,
    (C5_clear_resets_cache_and_counters (σ := List (Nat × Nat)) id id).2.2
      ⟨[(5, 7)], [], 1, 1⟩ 5 7 rfl (by decide)⟩

/-- C8: the `typed` flag selects the key derivation (`func.py` line 30):
with `typed` true the key function distinguishes arguments of different
runtime types even when they compare equal by value, so calling with
integer `1` and then float `1.0` records two misses; with `typed` false it
does not distinguish them, and the second call is a hit. -/
theorem C8_typed_flag_key_derivation :
    (chooseKeyFn true = typedkey ∧ chooseKeyFn false = hashkey) ∧
    (∀ a b : PyVal, pyEq a b = true → pyTypeOf a ≠ pyTypeOf b →
        keyTupleEq (hashkey [a]) (hashkey [b]) = true ∧
        keyTupleEq (typedkey [a]) (typedkey [b]) = false) ∧
    ((runCalls keyTupleEq (pyDictOps Nat) (chooseKeyFn true)
          (fun _ => (Except.ok 0 : Except Unit Nat)) (freshState [])
          [[PyVal.vint 1], [PyVal.vfloat 1]]).map
        (fun s => (s.hits, s.misses)) = some (0, 2)) ∧
    ((runCalls keyTupleEq (pyDictOps Nat) (chooseKeyFn false)
          (fun _ => (Except.ok 0 : Except Unit Nat)) (freshState [])
          [[PyVal.vint 1], [PyVal.vfloat 1]]).map
        (fun s => (s.hits, s.misses)) = some (1, 1)) := by
  refine ⟨⟨rfl, rfl⟩, fun a b hv ht => ?_, by decide, by decide⟩
  cases a <;> cases b <;>
    simp_all [pyEq, pyTypeOf, hashkey, typedkey, keyTupleEq, kElemEq]

/-- Witness for C8 at concrete inputs: integer `1` and float `1.0` compare
equal by value but have different runtime types, and the two key functions
respectively merge and separate them. -/
theorem C8_typed_flag_key_derivation_witness :
    (pyEq (.vint 1) (.vfloat 1) = true ∧
      pyTypeOf (.vint 1) ≠ pyTypeOf (.vfloat 1)) ∧
    (keyTupleEq (hashkey [.vint 1]) (hashkey [.vfloat 1]) = true ∧
      keyTupleEq (typedkey [.vint 1]) (typedkey [.vfloat 1]) = false) :=
  ⟨⟨by decide, by decide⟩,
    C8_typed_flag_key_derivation.2.1 (.vint 1) (.vfloat 1) (by decide) (by decide)⟩

/-- C2: every completed invocation bumps exactly one counter: a hit
increments `hits` and returns the cached value with `misses` unchanged, a
miss increments `misses` with `hits` unchanged; hence a sequence of `N`
completed calls on the unbounded fallback with `M` distinct derived keys
ends with `hits + misses = N` and `misses = M`. -/
theorem C2_counter_accounting {K V E α : Type} [DecidableEq K] (keyf : α → K)
    (g : α → V) :
    (∀ (σ : Type) (beq : K → K → Bool) (ops : CacheOps σ K V)
        (f : α → Except E V) (s : WState σ K) (args : α) (v : V),
        s.pending.any (beq (keyf args)) = false →
        ops.lookup s.cache (keyf args) = some v →
        wrapperCall beq ops keyf f s args =
          some (.ok v, { s with hits := s.hits + 1 }, [])) ∧
    (∀ (σ : Type) (beq : K → K → Bool) (ops : CacheOps σ K V)
        (f : α → Except E V) (s : WState σ K) (args : α),
        s.pending.any (beq (keyf args)) = false →
        ops.lookup s.cache (keyf args) = none →
        ∃ r s1 ev, wrapperCall beq ops keyf f s args = some (r, s1, ev) ∧
          s1.misses = s.misses + 1 ∧ s1.hits = s.hits) ∧
    (∀ calls : List α,
        ∃ s' : WState (List (K × V)) K,
          runCalls eqKey (dictOps K V) keyf
              (fun a => (Except.ok (g a) : Except E V)) (freshState []) calls =
            some s' ∧
          s'.hits + s'.misses = calls.length ∧
          s'.misses = ((calls.map keyf).toFinset).card) := by
  refine ⟨fun σ beq ops f s args v hb hl => wrapperCall_hit beq ops keyf f s args v hb hl,
    fun σ beq ops f s args hb hl => ?_, fun calls => ?_⟩
  · rcases hf : f args with e | v
    · exact ⟨.error e, _, _, wrapperCall_miss_raise beq ops keyf f s args e hb hl hf,
        rfl, rfl⟩
    · exact ⟨.ok v, _, _, wrapperCall_miss_ok beq ops keyf f s args v hb hl hf,
        rfl, rfl⟩
  · obtain ⟨s', hrun, _, _, hcount, hmiss, _⟩ :=
      runCalls_dict (E := E) keyf g calls (freshState []) rfl (by simp [freshState])
    refine ⟨s', hrun, by simpa [freshState] using hcount, ?_⟩
    rw [hmiss]
    simp [freshState, domA]

/-- Witness for C2 at concrete inputs: a hit on a cached key increments
`hits` only and returns the cached value. -/
theorem C2_counter_accounting_witness :
    (([] : List Nat).any (eqKey 5) = false ∧
      (dictOps Nat Nat).lookup [(5, 7)] 5 = some 7) ∧
    wrapperCall eqKey (dictOps Nat Nat) id (fun a => (Except.ok a : Except Unit Nat))
        ⟨[(5, 7)], [], 2, 3⟩ 5 = some (.ok 7, ⟨[(5, 7)], [], 3, 3⟩, []) :=
  ⟨⟨rfl, by decide⟩,
    (C2_counter_accounting (E := Unit) id id).1 (List (Nat × Nat)) eqKey
      (dictOps Nat Nat) (fun a => .ok a) ⟨[(5, 7)], [], 2, 3⟩ 5 7 rfl (by decide)⟩

/-- Modelled from the spec: a bounded cache for which every store is
intrinsically too large, so `cache[k] = v` always fails with
`ValueTooLarge` and leaves the cache unchanged. -/
def rejectAllOps : CacheOps (List (Nat × Nat)) Nat Nat where
  lookup := lookupA
  put _ _ _ := none
  clr _ := []
  size c := c.length

/-- C3: when the computation returns normally but the store fails with
`ValueTooLarge`, the wrapper swallows the failure: the cache is unchanged,
the computed result is still returned to the caller, and a future call with
the same key misses again (the value was not cached). -/
theorem C3_too_large_store_swallowed {σ K V E α : Type} (beq : K → K → Bool)
    (ops : CacheOps σ K V) (keyf : α → K) (f : α → Except E V) (s : WState σ K)
    (args : α) (v : V)
    (hb : s.pending.any (beq (keyf args)) = false)
    (hl : ops.lookup s.cache (keyf args) = none)
    (hf : f args = .ok v)
    (hput : ops.put s.cache (keyf args) v = none)
    (hrefl : beq (keyf args) (keyf args) = true) :
    wrapperCall beq ops keyf f s args =
      some (.ok v, ⟨s.cache, s.pending, s.hits, s.misses + 1⟩,
        [.addPending (keyf args), .removePending (keyf args), .notifyAll]) ∧
    wrapperCall beq ops keyf f ⟨s.cache, s.pending, s.hits, s.misses + 1⟩ args =
      some (.ok v, ⟨s.cache, s.pending, s.hits, s.misses + 2⟩,
        [.addPending (keyf args), .removePending (keyf args), .notifyAll]) := by
  have herase : ((keyf args :: s.pending).eraseP (beq (keyf args))) = s.pending :=
    List.eraseP_cons_of_pos hrefl
  constructor
  · rw [wrapperCall_miss_ok beq ops keyf f s args v hb hl hf, herase]
    simp [hput]
  · rw [wrapperCall_miss_ok beq ops keyf f ⟨s.cache, s.pending, s.hits, s.misses + 1⟩
      args v hb hl hf]
    simp [hput, herase]

/-- Witness for C3 at concrete inputs: on a cache rejecting every store,
a call computes, returns the result, caches nothing, and the next call with
the same key misses again. -/
theorem C3_too_large_store_swallowed_witness :
    (([] : List Nat).any (eqKey 5) = false ∧
      rejectAllOps.lookup [] 5 = none ∧
      (fun a => (Except.ok a : Except Unit Nat)) 5 = .ok 5 ∧
      rejectAllOps.put [] 5 5 = none ∧ eqKey 5 5 = true) ∧
    wrapperCall eqKey rejectAllOps id (fun a => (Except.ok a : Except Unit Nat))
        ⟨[], [], 0, 0⟩ 5 =
      some (.ok 5, ⟨[], [], 0, 1⟩, [.addPending 5, .removePending 5, .notifyAll]) :=
  ⟨⟨rfl, rfl, rfl, rfl, by decide⟩,
    (C3_too_large_store_swallowed eqKey rejectAllOps id
      (fun a => (Except.ok a : Except Unit Nat)) ⟨[], [], 0, 0⟩ 5 5 rfl rfl rfl rfl
      (by decide)).1⟩

/-- C6: `cache_info()` returns a `CacheInfo` tuple whose four fields are
read from one wrapper state: on the `dict` fallback `maxsize` is reported
as `None` and `currsize` is the number of stored entries (the number of
distinct keys called so far); a wrapper constructed with the unbounded
sentinel uses the `dict` fallback, whose reported `maxsize` is `None`. -/
theorem C6_cache_info_snapshot {K V α : Type} [DecidableEq K] (keyf : α → K)
    (g : α → V) :
    (∀ (σ : Type) (ops : CacheOps σ K V) (m : σ → Option Nat) (s : WState σ K),
        cacheInfoDict ops s = ⟨s.hits, s.misses, none, ops.size s.cache⟩ ∧
        cacheInfoCache ops m s = ⟨s.hits, s.misses, m s.cache, ops.size s.cache⟩) ∧
    (∀ (F : Type) (typed : Bool),
        lruCacheCtor (F := F) .unbounded typed = .decorator ⟨.dict, none, typed⟩ ∧
        reportedMaxsize .dict = none) ∧
    (∀ calls : List α,
        ∃ s' : WState (List (K × V)) K,
          runCalls eqKey (dictOps K V) keyf
              (fun a => (Except.ok (g a) : Except Unit V)) (freshState []) calls =
            some s' ∧
          cacheInfoDict (dictOps K V) s' =
            ⟨s'.hits, s'.misses, none, ((calls.map keyf).toFinset).card⟩) := by
  refine ⟨fun σ ops m s => ⟨rfl, rfl⟩, fun F typed => ⟨rfl, rfl⟩, fun calls => ?_⟩
  obtain ⟨s', hrun, _, hnd, _, _, hdom⟩ :=
    runCalls_dict (E := Unit) keyf g calls (freshState []) rfl (by simp [freshState])
  refine ⟨s', hrun, ?_⟩
  have hlen : s'.cache.length = (domA s'.cache).card := length_eq_card_domA _ hnd
  have : (domA s'.cache).card = ((calls.map keyf).toFinset).card := by
    rw [hdom]
    simp [freshState, domA]
  simp only [cacheInfoDict, dictOps]
  rw [hlen, this]

/-- C4: a raising computation propagates its error to the caller unchanged
and caches nothing; and on every outcome of the computation (success,
too-large rejection, or raise) the key is removed from the pending set
exactly once and all waiters are notified; a waiter blocked on the key is
enabled again once the release step has run. -/
theorem C4_error_propagation_and_release {σ K V E α : Type} [DecidableEq K]
    (beq : K → K → Bool) (ops : CacheOps σ K V) (keyf : α → K)
    (f : α → Except E V) (fc : K → Except E V) (fits : V → Bool) (k : K) :
    (∀ (s : WState σ K) (args : α) (e : E),
        s.pending.any (beq (keyf args)) = false →
        ops.lookup s.cache (keyf args) = none →
        f args = .error e →
        beq (keyf args) (keyf args) = true →
        wrapperCall beq ops keyf f s args =
          some (.error e, ⟨s.cache, s.pending, s.hits, s.misses + 1⟩,
            [.addPending (keyf args), .removePending (keyf args), .notifyAll])) ∧
    (∀ (s : WState σ K) (args : α) (r : Except E V) (s1 : WState σ K)
        (ev : List (Ev K)),
        s.pending.any (beq (keyf args)) = false →
        ops.lookup s.cache (keyf args) = none →
        wrapperCall beq ops keyf f s args = some (r, s1, ev) →
        ev.count (.removePending (keyf args)) = 1 ∧ Ev.notifyAll ∈ ev) ∧
    (∀ (sh : Shared K V) (v : V) (ph2 : Phase E V) (sh2 : Shared K V) (n : Nat),
        sh.pending = [k] →
        TStep fc fits k (.stored v) sh ph2 sh2 n →
        sh2.pending = [] ∧ ∃ ph3 sh3, TStep fc fits k .start sh2 ph3 sh3 0) ∧
    (∀ (sh : Shared K V) (e : E) (ph2 : Phase E V) (sh2 : Shared K V) (n : Nat),
        sh.pending = [k] →
        TStep fc fits k (.computed (.error e)) sh ph2 sh2 n →
        sh2.pending = [] ∧ ∃ ph3 sh3, TStep fc fits k .start sh2 ph3 sh3 0) := by
  refine ⟨fun s args e hb hl hf hrefl => ?_, fun s args r s1 ev hb hl hw => ?_,
    fun sh v ph2 sh2 n hpend hstep => ?_, fun sh e ph2 sh2 n hpend hstep => ?_⟩
  · rw [wrapperCall_miss_raise beq ops keyf f s args e hb hl hf,
      List.eraseP_cons_of_pos hrefl]
  · rcases hf : f args with e | v
    · rw [wrapperCall_miss_raise beq ops keyf f s args e hb hl hf] at hw
      simp only [Option.some.injEq, Prod.mk.injEq] at hw
      rw [← hw.2.2]
      refine ⟨?_, by simp⟩
      simp [List.count_cons]
    · rw [wrapperCall_miss_ok beq ops keyf f s args v hb hl hf] at hw
      simp only [Option.some.injEq, Prod.mk.injEq] at hw
      rw [← hw.2.2]
      refine ⟨?_, by simp⟩
      simp [List.count_cons]
  · cases hstep with
    | releaseOk sh0 v =>
      have hp : sh.pending.erase k = [] := by
        rw [hpend, List.erase_cons_head]
      refine ⟨hp, ?_⟩
      rcases hc : lookupA sh.cache k with _ | v0
      · exact ⟨.computing, _, TStep.checkMiss _ (by simp [hp]) hc⟩
      · exact ⟨.done true v0, _, TStep.checkHit _ v0 (by simp [hp]) hc⟩
  · cases hstep with
    | releaseErr sh0 e =>
      have hp : sh.pending.erase k = [] := by
        rw [hpend, List.erase_cons_head]
      refine ⟨hp, ?_⟩
      rcases hc : lookupA sh.cache k with _ | v0
      · exact ⟨.computing, _, TStep.checkMiss _ (by simp [hp]) hc⟩
      · exact ⟨.done true v0, _, TStep.checkHit _ v0 (by simp [hp]) hc⟩

/-- Witness for C4 at concrete inputs: a raising computation returns its
error unchanged, caches nothing, and emits exactly one pending-removal plus
a notify-all. -/
theorem C4_error_propagation_and_release_witness :
    (([] : List Nat).any (eqKey 5) = false ∧
      (dictOps Nat Nat).lookup [] 5 = none ∧
      (fun _ : Nat => (Except.error 3 : Except Nat Nat)) 5 = .error 3 ∧
      eqKey 5 5 = true) ∧
    wrapperCall eqKey (dictOps Nat Nat) id (fun _ => (Except.error 3 : Except Nat Nat))
        ⟨[], [], 0, 0⟩ 5 =
      some (.error 3, ⟨[], [], 0, 1⟩, [.addPending 5, .removePending 5, .notifyAll]) :=
  ⟨⟨rfl, rfl, rfl, by decide⟩,
    (C4_error_propagation_and_release eqKey (dictOps Nat Nat) id
      (fun _ => (Except.error 3 : Except Nat Nat))
      (fun _ => (Except.error 3 : Except Nat Nat)) (fun _ => true) 5).1
      ⟨[], [], 0, 0⟩ 5 3 rfl rfl rfl (by decide)⟩

/-- C1: stampede prevention.  In the two-thread interleaving semantics of
`wrapper`: (1) with both threads calling the same key whose computation
succeeds with a cacheable value, at most one computation is in flight at any
reachable state, and in every reachable state where both calls have
completed the computation body was executed exactly once and both callers
received the same result; (2) a caller whose key is in the pending set
cannot pass the wait (no step is enabled for it until the key is removed);
(3) with distinct keys, a state in which both computations run
simultaneously is reachable; (4) the computation step itself touches no
shared state — it runs with the lock released. -/
theorem C1_stampede_prevention {K V E : Type} [DecidableEq K]
    (f : K → Except E V) (fits : V → Bool) (k k1 k2 : K) (v : V)
    (hf : f k = .ok v) (hfits : fits v = true) (hne : k1 ≠ k2) :
    (∀ s : CState K V E, ReachC f fits k k (initialCState K V E) s →
        ¬(s.ph1.isActive = true ∧ s.ph2.isActive = true) ∧
        (∀ (b1 : Bool) (w1 : V) (b2 : Bool) (w2 : V),
            s.ph1 = .done b1 w1 → s.ph2 = .done b2 w2 →
            s.execs = 1 ∧ w1 = v ∧ w2 = v)) ∧
    (∀ (sh : Shared K V) (ph : Phase E V) (sh2 : Shared K V) (n : Nat),
        k ∈ sh.pending → ¬ TStep f fits k .start sh ph sh2 n) ∧
    (∃ s : CState K V E, ReachC f fits k1 k2 (initialCState K V E) s ∧
        s.ph1 = .computing ∧ s.ph2 = .computing) ∧
    (∀ (sh : Shared K V) (ph : Phase E V) (sh2 : Shared K V) (n : Nat),
        TStep f fits k .computing sh ph sh2 n →
        sh2 = sh ∧ ph = .computed (f k) ∧ n = 1) := by
  refine ⟨fun s hs => ?_, fun sh ph sh2 n hk hstep => ?_, ?_,
    fun sh ph sh2 n hstep => ?_⟩
  · obtain ⟨g1, g2, hm, hp, hc, hh1, hh2, he⟩ :=
      sameKeyInv_reach hf hfits hs (sameKeyInv_initial k v)
    refine ⟨fun hx => hm ⟨missy_of_active _ hx.1, missy_of_active _ hx.2⟩, ?_⟩
    intro b1 w1 b2 w2 h1 h2
    rw [h1] at g1 hm hh1 hh2 he
    rw [h2] at g2 hm hh1 hh2 he
    cases b1 <;> cases b2 <;>
      simp_all [Phase.goodFor, Phase.isMissy, Phase.isHitDone, Phase.isPoststore,
        Phase.execCount]
  · cases hstep with
    | checkHit sh0 v0 hnp hlook => exact hnp hk
    | checkMiss sh0 hnp hlook => exact hnp hk
  · have hs1 := @CStep.left K V E _ f fits k1 k2
      (initialCState K V E) Phase.computing _ 0
      (TStep.checkMiss (initialCState K V E).sh (by simp [initialCState]) rfl)
    refine ⟨_, Relation.ReflTransGen.tail (Relation.ReflTransGen.single hs1)
      (CStep.right _ Phase.computing _ 0
        (TStep.checkMiss _ (by simpa [initialCState] using Ne.symm hne) rfl)),
      rfl, rfl⟩
  · cases hstep with
    | compute sh0 => exact ⟨rfl, rfl, rfl⟩

/-- Witness for C1 at concrete inputs: key `0` with computation returning
`1`, a second key `1`, and the blocking property applied at a state with
key `0` pending. -/
theorem C1_stampede_prevention_witness :
    ((fun _ : Nat => (Except.ok 1 : Except Unit Nat)) 0 = .ok 1 ∧
      (fun _ : Nat => true) (1 : Nat) = true ∧ (0 : Nat) ≠ 1) ∧
    (∀ (sh : Shared Nat Nat) (ph : Phase Unit Nat) (sh2 : Shared Nat Nat) (n : Nat),
        0 ∈ sh.pending →
        ¬ TStep (fun _ => (Except.ok 1 : Except Unit Nat)) (fun _ => true) 0
          .start sh ph sh2 n) :=
  ⟨⟨rfl, rfl, by decide⟩,
    (C1_stampede_prevention (fun _ => (Except.ok 1 : Except Unit Nat))
      (fun _ => true) 0 0 1 1 rfl rfl (by decide)).2.1⟩

end Cachetools
